import Mathlib

/-
Verification of the batting-table extraction pipeline in
pybaseball/team_batting.py against its specification.

The module has two entry points, team_batting_bref and season_batting_bref.
Both iterate an inclusive season range, fetch a page per season, locate an
HTML table, resolve column headings once, normalize rows and assemble a
pandas DataFrame.  We embed the pipeline shallowly: a fetched page is given
as a function from the season to the parse result that the code inspects
(for team pages, the list of tables matching the sortable stats class; for
league pages, the optional table with id teams_standard_batting).  Cells are
strings, the inserted season value an integer, and pandas NaN padding an
explicit nan cell.  Python exceptions are modelled with Except, and the
print calls with an accumulated list of log lines.
-/

namespace Pybaseball

/-- A cell of the assembled DataFrame: a text cell, the inserted integer
season value, or a pandas NaN (as produced by padding short rows). -/
inductive Cell where
  | str (s : String)
  | int (n : Int)
  | nan
deriving DecidableEq

/-- Python exceptions the pipeline can raise. -/
inductive PyError where
  | valueError
  | assertionError
  | indexError
  | attributeError
deriving DecidableEq

/-- The assembled DataFrame: column names plus rows of cells. -/
structure Frame where
  headings : List String
  rows : List (List Cell)
deriving DecidableEq

deriving instance DecidableEq for Except

/-- Python list.insert i x: inserts at position i, clamping to the length. -/
def pyInsert (i : Nat) (x : α) (l : List α) : List α :=
  l.take i ++ x :: l.drop i

/-- Characters treated as whitespace by the strip calls in the source. -/
def isSpace (c : Char) : Bool :=
  c == ' ' || c == '\t' || c == '\n' || c == '\r'

/-- Python str.strip: removes leading and trailing whitespace. -/
def pyStrip (s : String) : String :=
  ⟨((s.data.dropWhile isSpace).reverse.dropWhile isSpace).reverse⟩

/-- Python str.replace with a one-character pattern and empty replacement,
as in the source lines removing the decoration characters: every occurrence
of the character is removed. -/
def pyRemoveChar (c : Char) (s : String) : String :=
  ⟨s.data.filter (fun a => a != c)⟩

/-- Whether the first character list occurs contiguously inside the second. -/
def listInfixOf (needle : List Char) : List Char → Bool
  | [] => needle.isEmpty
  | a :: rest => needle.isPrefixOf (a :: rest) || listInfixOf needle rest

/-- Python substring membership test, needle in hay. -/
def pyIn (needle hay : String) : Bool :=
  listInfixOf needle.data hay.data

/-- Python str.split on the slash character. -/
def splitCharAux (c : Char) : List Char → List (List Char)
  | [] => [[]]
  | a :: rest =>
    let r := splitCharAux c rest
    if a = c then [] :: r
    else
      match r with
      | [] => [[a]]
      | g :: gs => (a :: g) :: gs

/-- Python href.split with separator the slash character. -/
def pySplitSlash (s : String) : List String :=
  (splitCharAux '/' s.data).map (fun l => ⟨l⟩)

/-- Python range(a, b + 1) as the list of integers a, a + 1, ..., b. -/
def pyRangeAux : Nat → Int → List Int
  | 0, _ => []
  | n + 1, a => a :: pyRangeAux n (a + 1)

/-- The inclusive integer season range iterated by both entry points. -/
def pyRange (a b : Int) : List Int :=
  pyRangeAux (b + 1 - a).toNat a

/-- Pads a row with NaN cells up to the requested width, as pandas does for
rows shorter than the column list. -/
def padTo (n : Nat) (r : List Cell) : List Cell :=
  r ++ List.replicate (n - r.length) Cell.nan

/-- The width pandas infers for a nonempty list of lists: the length of
the longest row. -/
def maxRowLen (rows : List (List Cell)) : Nat :=
  rows.foldr (fun r m => max r.length m) 0

/-- pandas DataFrame construction with an explicit column list: an empty
row list gives an empty frame with those columns; otherwise the inferred
width is the longest row length, a column count differing from that width
in either direction is a ValueError, and the shorter rows are padded with
NaN to the inferred width. -/
def mkFrame (headings : List String) (rows : List (List Cell)) :
    Except PyError Frame :=
  match rows with
  | [] => Except.ok ⟨headings, []⟩
  | r :: rest =>
    if maxRowLen (r :: rest) = headings.length then
      Except.ok ⟨headings, (r :: rest).map (padTo headings.length)⟩
    else Except.error .valueError

/-- Whether a row contains a NaN cell. -/
def hasNan : List Cell → Bool
  | [] => false
  | c :: r => (c == Cell.nan) || hasNan r

/-- pandas DataFrame.dropna applied to an assembled frame: drops every row
containing a NaN cell. -/
def dropna (f : Frame) : Frame :=
  ⟨f.headings, f.rows.filter (fun r => !(hasNan r))⟩

/-- A table on a team page, as the code reads it: the text of every th cell
of the table in document order, and for every tr the list of its td texts. -/
structure TTable where
  ths : List String
  trs : List (List String)

/-- Heading resolution for team pages, source line 46: the th texts sliced
from index 1 to 28 and stripped of whitespace. -/
def teamHeadingsOf (t : TTable) : List String :=
  ((t.ths.drop 1).take 27).map pyStrip

/-- Row normalization for team pages, source lines 50 to 55: strip each td
text, remove the decoration characters, drop the cells containing an
aggregate marker, and insert the season at index 2. -/
def teamRow (season : Int) (tr : List String) : List Cell :=
  let cols := tr.map pyStrip
  let cols := cols.map (fun c => pyRemoveChar '#' (pyRemoveChar '*' c))
  let cols := cols.filter (fun c =>
    !(pyIn "Totals" c) && !(pyIn "NL teams" c) && !(pyIn "AL teams" c))
  pyInsert 2 (Cell.int season) (cols.map Cell.str)

/-- All normalized rows contributed by one team-page table. -/
def teamRowsOf (season : Int) (t : TTable) : List (List Cell) :=
  t.trs.map (teamRow season)

/-- The season loop of team_batting_bref, source lines 37 to 55.  The pages
argument gives, per season, the list of tables matching the sortable stats
class; indexing that list at 0 when it is empty is the IndexError of source
line 43.  Headings are resolved from the first table seen. -/
def teamLoop (team : String) (pages : Int → List TTable) :
    List Int → Option (List String) → List (List Cell) → List String →
    List String × Except PyError (Option (List String) × List (List Cell))
  | [], h, raw, log => (log, Except.ok (h, raw))
  | s :: rest, h, raw, log =>
    let log := log ++ ["Getting Batting Data: " ++ toString s ++ " " ++ team]
    match pages s with
    | [] => (log, Except.error .indexError)
    | t :: _ =>
      teamLoop team pages rest (some (h.getD (teamHeadingsOf t)))
        (raw ++ teamRowsOf s t) log

/-- team_batting_bref, source lines 17 to 62: iterate the season range,
assert that headings were established, insert the Year heading at index 2,
build the DataFrame and drop the NaN rows. -/
def team_batting_bref (team : String) (startSeason : Int)
    (endSeason : Option Int) (pages : Int → List TTable) :
    List String × Except PyError Frame :=
  let endS := endSeason.getD startSeason
  match teamLoop team pages (pyRange startSeason endS) none [] [] with
  | (log, Except.error e) => (log, Except.error e)
  | (log, Except.ok (none, _)) => (log, Except.error .assertionError)
  | (log, Except.ok (some hs, raw)) =>
    match mkFrame (pyInsert 2 "Year" hs) raw with
    | Except.error e => (log, Except.error e)
    | Except.ok f => (log, Except.ok (dropna f))

/-- A tbody row of the league standard-batting table: the text of the th
cell carrying the team name, the href of the anchor inside it when such an
anchor with an href exists, and the td texts. -/
structure LRow where
  teamName : String
  href : Option String
  tds : List String

/-- The league standard-batting table: the data-stat attribute of each
thead th cell, and the tbody rows. -/
structure LTable where
  theadStats : List String
  tbody : List LRow

/-- Row normalization for league pages, source lines 100 to 115: skip the
League Average row, read the team abbreviation as path segment 2 of the
anchor href (a missing anchor or href is the AttributeError of line 111, a
short href the IndexError), and prepend season, abbreviation and name to
the stripped td texts. -/
def lrowCols (season : Int) (r : LRow) : Except PyError (Option (List Cell)) :=
  let name := pyStrip r.teamName
  if name = "League Average" then Except.ok none
  else
    match r.href with
    | none => Except.error .attributeError
    | some href =>
      match (pySplitSlash href).get? 2 with
      | none => Except.error .indexError
      | some ab =>
        Except.ok (some (Cell.int season :: Cell.str ab :: Cell.str name ::
          r.tds.map (fun td => Cell.str (pyStrip td))))

/-- All rows contributed by one league table, in tbody order, stopping at
the first row that raises. -/
def leagueRowsOf (season : Int) : List LRow → Except PyError (List (List Cell))
  | [] => Except.ok []
  | r :: rest =>
    match lrowCols season r with
    | Except.error e => Except.error e
    | Except.ok none => leagueRowsOf season rest
    | Except.ok (some cols) =>
      match leagueRowsOf season rest with
      | Except.error e => Except.error e
      | Except.ok rs => Except.ok (cols :: rs)

/-- The season loop of season_batting_bref, source lines 85 to 115.  A
season whose page has no teams_standard_batting table is logged and
skipped; headings are resolved from the first table seen. -/
def seasonLoop (pages : Int → Option LTable) :
    List Int → Option (List String) → List (List Cell) → List String →
    List String × Except PyError (Option (List String) × List (List Cell))
  | [], h, raw, log => (log, Except.ok (h, raw))
  | s :: rest, h, raw, log =>
    let log := log ++ ["Getting per-team batting data: " ++ toString s]
    match pages s with
    | none => seasonLoop pages rest h raw (log ++ ["Table not found for " ++ toString s])
    | some t =>
      match leagueRowsOf s t.tbody with
      | Except.error e => (log, Except.error e)
      | Except.ok rs =>
        seasonLoop pages rest (some (h.getD t.theadStats)) (raw ++ rs) log

/-- season_batting_bref, source lines 65 to 124: iterate the season range,
assert that headings were established, replace the first raw heading by the
three derived column names and build the DataFrame.  The dropna call of
source line 122 discards its result, so the frame is returned as built. -/
def season_batting_bref (startSeason : Int) (endSeason : Option Int)
    (pages : Int → Option LTable) : List String × Except PyError Frame :=
  let endS := endSeason.getD startSeason
  match seasonLoop pages (pyRange startSeason endS) none [] [] with
  | (log, Except.error e) => (log, Except.error e)
  | (log, Except.ok (none, _)) => (log, Except.error .assertionError)
  | (log, Except.ok (some hs, raw)) =>
    match mkFrame ("season" :: "team_abbrev" :: "team_name" :: hs.drop 1) raw with
    | Except.error e => (log, Except.error e)
    | Except.ok f => (log, Except.ok f)

/-- The integer cells of a row, in order.  In every row either entry point
builds, the only integer cell is the inserted season. -/
def rowInts (r : List Cell) : List Int :=
  r.filterMap (fun c => match c with | Cell.int n => some n | _ => none)

/-- Rows ordered by their integer season cells. -/
def RowLe (r₁ r₂ : List Cell) : Prop :=
  ∀ a ∈ rowInts r₁, ∀ b ∈ rowInts r₂, a ≤ b

/-- A cell is blank when it is NaN or the empty string. -/
def cellEmpty : Cell → Bool
  | Cell.nan => true
  | Cell.str s => s == ""
  | Cell.int _ => false

/-- Whether a cell is a text cell containing the given character. -/
def cellHasChar (ch : Char) : Cell → Bool
  | Cell.str s => s.data.any (fun a => a == ch)
  | _ => false

/-- Whether a cell is a text cell containing the given substring. -/
def cellIn (needle : String) : Cell → Bool
  | Cell.str s => pyIn needle s
  | _ => false

/-- Concatenation of the per-season row blocks, in season order. -/
def flatOver (ss : List α) (g : α → List β) : List β :=
  match ss with
  | [] => []
  | s :: rest => g s ++ flatOver rest g

/-- The rows one season contributes in team_batting_bref, when the loop
does not raise on it. -/
def teamPerSeason (pages : Int → List TTable) (s : Int) : List (List Cell) :=
  match pages s with
  | [] => []
  | t :: _ => teamRowsOf s t

/-- The rows one season contributes in season_batting_bref, when the loop
does not raise on it. -/
def leaguePerSeason (pages : Int → Option LTable) (s : Int) : List (List Cell) :=
  match pages s with
  | none => []
  | some t =>
    match leagueRowsOf s t.tbody with
    | Except.error _ => []
    | Except.ok rs => rs

/-- Fetch results in which no season page carries the
teams_standard_batting table. -/
def pagesNoLeagueTable : Int → Option LTable := fun _ => none

/-- Fetch results in which no team page carries a sortable stats table. -/
def pagesNoTeamTable : Int → List TTable := fun _ => []

/-- A team page whose second data row normalizes to fewer fields than the
headings. -/
def pagesShortRow : Int → List TTable :=
  fun _ => [⟨["rk", "A", "B", "C"], [["a", "b", "c"], ["x"]]⟩]

/-- A league page carrying a decorated value inside a td cell and in the
team name. -/
def pagesStarCell : Int → Option LTable :=
  fun s => if s = 2021 then
      some ⟨["team_name", "HR"],
        [⟨"Dodgers*", some "/teams/LAD/2021.shtml", ["15*"]⟩]⟩
    else none

/-- A league page whose tbody carries a Team Totals row. -/
def pagesTotalsRow : Int → Option LTable :=
  fun s => if s = 2020 then
      some ⟨["team_name", "G"],
        [⟨"Team Totals", some "/teams/TOT/2020.shtml", ["162"]⟩]⟩
    else none

/-- Well-formed team pages on which team_batting_bref succeeds. -/
def pagesTeamW : Int → List TTable :=
  fun _ => [⟨["rk", "A", "B"], [["u", "v"]]⟩]

/-- Well-formed league pages on which season_batting_bref succeeds. -/
def pagesLeagueW : Int → Option LTable :=
  fun _ => some ⟨["team_name", "G"], [⟨"Yanks", some "/teams/NYY/x", ["9"]⟩]⟩

/-- The frame team_batting_bref returns on pagesTeamW for 2001 to 2002. -/
def frameWT : Frame :=
  ⟨["A", "B", "Year"],
    [[Cell.str "u", Cell.str "v", Cell.int 2001],
     [Cell.str "u", Cell.str "v", Cell.int 2002]]⟩

/-- The frame season_batting_bref returns on pagesLeagueW for 2001 to
2002. -/
def frameWS : Frame :=
  ⟨["season", "team_abbrev", "team_name", "G"],
    [[Cell.int 2001, Cell.str "NYY", Cell.str "Yanks", Cell.str "9"],
     [Cell.int 2002, Cell.str "NYY", Cell.str "Yanks", Cell.str "9"]]⟩

/-- The log lines of the team call on pagesTeamW. -/
def logWT : List String :=
  ["Getting Batting Data: 2001 T", "Getting Batting Data: 2002 T"]

/-- The log lines of the season call on pagesLeagueW. -/
def logWS : List String :=
  ["Getting per-team batting data: 2001", "Getting per-team batting data: 2002"]

theorem mem_flatOver {ss : List α} {g : α → List β} {r : β} :
    r ∈ flatOver ss g ↔ ∃ s ∈ ss, r ∈ g s := by
  induction ss with
  | nil => simp [flatOver]
  | cons s rest ih => simp [flatOver, ih]

theorem teamLoop_ok {team : String} {pages : Int → List TTable}
    {ss : List Int} {h : Option (List String)} {raw : List (List Cell)}
    {log log' : List String} {h' : Option (List String)} {raw' : List (List Cell)}
    (e : teamLoop team pages ss h raw log = (log', Except.ok (h', raw'))) :
    raw' = raw ++ flatOver ss (teamPerSeason pages) := by
  induction ss generalizing h raw log with
  | nil =>
    simp only [teamLoop, Prod.mk.injEq, Except.ok.injEq] at e
    simp [flatOver, ← e.2.2]
  | cons s rest ih =>
    simp only [teamLoop] at e
    split at e
    · simp at e
    · next t ts hp =>
      have := ih e
      rw [this, List.append_assoc]
      have hper : teamPerSeason pages s = teamRowsOf s t := by
        simp [teamPerSeason, hp]
      simp [flatOver, hper]

theorem seasonLoop_ok {pages : Int → Option LTable}
    {ss : List Int} {h : Option (List String)} {raw : List (List Cell)}
    {log log' : List String} {h' : Option (List String)} {raw' : List (List Cell)}
    (e : seasonLoop pages ss h raw log = (log', Except.ok (h', raw'))) :
    raw' = raw ++ flatOver ss (leaguePerSeason pages) := by
  induction ss generalizing h raw log with
  | nil =>
    simp only [seasonLoop, Prod.mk.injEq, Except.ok.injEq] at e
    simp [flatOver, ← e.2.2]
  | cons s rest ih =>
    simp only [seasonLoop] at e
    split at e
    · next hp =>
      have := ih e
      rw [this]
      have hper : leaguePerSeason pages s = [] := by simp [leaguePerSeason, hp]
      simp [flatOver, hper]
    · next t hp =>
      split at e
      · simp at e
      · next rs hr =>
        have := ih e
        rw [this, List.append_assoc]
        have hper : leaguePerSeason pages s = rs := by
          simp [leaguePerSeason, hp, hr]
        simp [flatOver, hper]

theorem maxRowLen_cons (r : List Cell) (rest : List (List Cell)) :
    maxRowLen (r :: rest) = max r.length (maxRowLen rest) := rfl

theorem le_maxRowLen {rows : List (List Cell)} {r : List Cell} (h : r ∈ rows) :
    r.length ≤ maxRowLen rows := by
  induction rows with
  | nil => simp at h
  | cons x rest ih =>
    rcases List.mem_cons.mp h with he | hm
    · rw [he, maxRowLen_cons]
      exact le_max_left _ _
    · exact le_trans (ih hm) (by rw [maxRowLen_cons]; exact le_max_right _ _)

theorem mkFrame_ok {hs : List String} {rows : List (List Cell)} {f : Frame}
    (h : mkFrame hs rows = Except.ok f) :
    f.headings = hs ∧ f.rows = rows.map (padTo hs.length) ∧
      ∀ r ∈ rows, r.length ≤ hs.length := by
  cases rows with
  | nil =>
    simp only [mkFrame, Except.ok.injEq] at h
    subst h
    exact ⟨rfl, rfl, by simp⟩
  | cons r rest =>
    simp only [mkFrame] at h
    split at h
    · next hw =>
      simp only [Except.ok.injEq] at h
      subst h
      exact ⟨rfl, rfl, fun x hx => hw ▸ le_maxRowLen hx⟩
    · simp at h

/-- Structure of every successful team_batting_bref call: the headings are
the resolved raw headings with Year inserted at index 2, and the rows are
the per-season normalized rows, padded to the heading count and filtered of
NaN rows. -/
theorem team_ok {team : String} {a : Int} {eo : Option Int}
    {pages : Int → List TTable} {log : List String} {f : Frame}
    (h : team_batting_bref team a eo pages = (log, Except.ok f)) :
    ∃ hs, f.headings = pyInsert 2 "Year" hs ∧
      (∀ r ∈ flatOver (pyRange a (eo.getD a)) (teamPerSeason pages),
        r.length ≤ f.headings.length) ∧
      f.rows = ((flatOver (pyRange a (eo.getD a)) (teamPerSeason pages)).map
        (padTo f.headings.length)).filter (fun r => !(hasNan r)) := by
  simp only [team_batting_bref] at h
  split at h
  · simp at h
  · simp at h
  · next log₁ hs raw hloop =>
    split at h
    · simp at h
    · next f₀ hmk =>
      simp only [Prod.mk.injEq, Except.ok.injEq] at h
      obtain ⟨-, hf⟩ := h
      obtain ⟨hh, hrows, hbound⟩ := mkFrame_ok hmk
      have hraw : raw = flatOver (pyRange a (eo.getD a)) (teamPerSeason pages) := by
        simpa using teamLoop_ok hloop
      subst hf
      refine ⟨hs, ?_, ?_, ?_⟩
      · simpa [dropna] using hh
      · intro r hr
        have hm : r ∈ raw := by rw [hraw]; exact hr
        simpa [dropna, hh] using hbound r hm
      · simp only [dropna]
        rw [hrows, hraw]
        simp [hh]

/-- Structure of every successful season_batting_bref call: the headings
are the three derived names followed by the raw headings without their
first entry, and the rows are the per-season normalized rows padded to the
heading count.  No NaN filtering happens, the dropna result being
discarded. -/
theorem season_ok {a : Int} {eo : Option Int}
    {pages : Int → Option LTable} {log : List String} {f : Frame}
    (h : season_batting_bref a eo pages = (log, Except.ok f)) :
    ∃ hs : List String,
      f.headings = "season" :: "team_abbrev" :: "team_name" :: hs.drop 1 ∧
      (∀ r ∈ flatOver (pyRange a (eo.getD a)) (leaguePerSeason pages),
        r.length ≤ f.headings.length) ∧
      f.rows = (flatOver (pyRange a (eo.getD a)) (leaguePerSeason pages)).map
        (padTo f.headings.length) := by
  simp only [season_batting_bref] at h
  split at h
  · simp at h
  · simp at h
  · next log₁ hs raw hloop =>
    split at h
    · simp at h
    · next f₀ hmk =>
      simp only [Prod.mk.injEq, Except.ok.injEq] at h
      obtain ⟨-, hf⟩ := h
      obtain ⟨hh, hrows, hbound⟩ := mkFrame_ok hmk
      have hraw : raw = flatOver (pyRange a (eo.getD a)) (leaguePerSeason pages) := by
        simpa using seasonLoop_ok hloop
      subst hf
      refine ⟨hs, hh, ?_, ?_⟩
      · intro r hr
        have hm : r ∈ raw := by rw [hraw]; exact hr
        simpa [hh] using hbound r hm
      · rw [hrows, hraw, hh]

theorem hasNan_eq_false {r : List Cell} :
    hasNan r = false ↔ ∀ c ∈ r, c ≠ Cell.nan := by
  induction r with
  | nil => simp [hasNan]
  | cons c rest ih => cases c <;> simp [hasNan, ih]

theorem rowInts_eq_nil {l : List Cell} (h : ∀ c ∈ l, ∀ n : Int, c ≠ Cell.int n) :
    rowInts l = [] := by
  induction l with
  | nil => rfl
  | cons c rest ih =>
    have ih' := ih (fun c hc n => h c (List.mem_cons_of_mem _ hc) n)
    cases c with
    | int n => exact absurd rfl (h (Cell.int n) (List.mem_cons_self _ _) n)
    | str s => simpa [rowInts, List.filterMap_cons] using ih'
    | nan => simpa [rowInts, List.filterMap_cons] using ih'

theorem rowInts_append (l₁ l₂ : List Cell) :
    rowInts (l₁ ++ l₂) = rowInts l₁ ++ rowInts l₂ :=
  List.filterMap_append l₁ l₂ _

theorem rowInts_int_middle (s : Int) (l₁ l₂ : List Cell) :
    rowInts (l₁ ++ Cell.int s :: l₂) = rowInts l₁ ++ s :: rowInts l₂ := by
  rw [rowInts_append]
  congr 1

theorem rowInts_padTo (n : Nat) (r : List Cell) :
    rowInts (padTo n r) = rowInts r := by
  rw [padTo, rowInts_append]
  have : rowInts (List.replicate (n - r.length) Cell.nan) = [] :=
    rowInts_eq_nil (fun c hc m => by
      rw [List.eq_of_mem_replicate hc]; simp)
  simp [this]

theorem padTo_length {n : Nat} {r : List Cell} (h : r.length ≤ n) :
    (padTo n r).length = n := by
  simp [padTo, Nat.add_sub_cancel' h]

theorem mem_padTo {n : Nat} {r : List Cell} {c : Cell} (h : c ∈ padTo n r) :
    c ∈ r ∨ c = Cell.nan := by
  rcases List.mem_append.mp h with hm | hm
  · exact Or.inl hm
  · exact Or.inr (List.eq_of_mem_replicate hm)

theorem padTo_eq_self {n : Nat} {r : List Cell} (h : hasNan (padTo n r) = false) :
    padTo n r = r := by
  cases hk : n - r.length with
  | zero => simp [padTo, hk]
  | succ k =>
    exfalso
    have hmem : Cell.nan ∈ padTo n r := by
      apply List.mem_append.mpr
      right
      rw [hk]
      exact List.mem_replicate.mpr ⟨by simp, rfl⟩
    exact hasNan_eq_false.mp h Cell.nan hmem rfl

theorem pyRemoveChar_no_char (c : Char) (s : String) :
    (pyRemoveChar c s).data.any (fun a => a == c) = false := by
  rw [Bool.eq_false_iff]
  intro hany
  rcases List.any_eq_true.mp hany with ⟨a, ha, hc⟩
  rcases List.mem_filter.mp ha with ⟨-, hne⟩
  rw [beq_iff_eq] at hc
  subst hc
  simp at hne

theorem pyRemoveChar_subset {a : Char} {c : Char} {s : String}
    (h : a ∈ (pyRemoveChar c s).data) : a ∈ s.data :=
  List.mem_of_mem_filter h

/-- Every cell of a normalized team row is either the inserted season or a
text cell with the decorations removed and the aggregate markers absent. -/
theorem teamRow_cells {s : Int} {tr : List String} {c : Cell}
    (h : c ∈ teamRow s tr) :
    c = Cell.int s ∨ ∃ x : String, c = Cell.str x ∧
      x.data.any (fun a => a == '*') = false ∧
      x.data.any (fun a => a == '#') = false ∧
      pyIn "Totals" x = false ∧ pyIn "NL teams" x = false ∧
      pyIn "AL teams" x = false := by
  simp only [teamRow, pyInsert] at h
  have hmem : c = Cell.int s ∨
      c ∈ (((tr.map pyStrip).map (fun c => pyRemoveChar '#' (pyRemoveChar '*' c))).filter
        (fun c => !(pyIn "Totals" c) && !(pyIn "NL teams" c) && !(pyIn "AL teams" c))).map
        Cell.str := by
    rcases List.mem_append.mp h with hm | hm
    · exact Or.inr (List.take_subset _ _ hm)
    · rcases List.mem_cons.mp hm with he | hm
      · exact Or.inl he
      · exact Or.inr (List.drop_subset _ _ hm)
  rcases hmem with he | hm
  · exact Or.inl he
  right
  rcases List.mem_map.mp hm with ⟨x, hx, hcx⟩
  rcases List.mem_filter.mp hx with ⟨hx', hp⟩
  rcases List.mem_map.mp hx' with ⟨y, -, hy⟩
  refine ⟨x, hcx.symm, ?_, ?_, ?_, ?_, ?_⟩
  · rw [← hy, Bool.eq_false_iff]
    intro hany
    rcases List.any_eq_true.mp hany with ⟨a, ha, hc⟩
    rw [beq_iff_eq] at hc
    subst hc
    have ha' := pyRemoveChar_subset ha
    have := pyRemoveChar_no_char '*' y
    rw [Bool.eq_false_iff] at this
    exact this (List.any_eq_true.mpr ⟨'*', ha', by simp⟩)
  · rw [← hy]
    exact pyRemoveChar_no_char '#' _
  · simp only [Bool.and_eq_true, Bool.not_eq_true'] at hp
    exact hp.1.1
  · simp only [Bool.and_eq_true, Bool.not_eq_true'] at hp
    exact hp.1.2
  · simp only [Bool.and_eq_true, Bool.not_eq_true'] at hp
    exact hp.2

theorem rowInts_take_map_str (l : List String) (k : Nat) :
    rowInts ((l.map Cell.str).take k) = [] :=
  rowInts_eq_nil (fun c hc n => by
    rcases List.mem_map.mp (List.take_subset _ _ hc) with ⟨x, -, hx⟩
    rw [← hx]; simp)

theorem rowInts_drop_map_str (l : List String) (k : Nat) :
    rowInts ((l.map Cell.str).drop k) = [] :=
  rowInts_eq_nil (fun c hc n => by
    rcases List.mem_map.mp (List.drop_subset _ _ hc) with ⟨x, -, hx⟩
    rw [← hx]; simp)

/-- The only integer cell of a normalized team row is the inserted season. -/
theorem rowInts_teamRow (s : Int) (tr : List String) :
    rowInts (teamRow s tr) = [s] := by
  simp only [teamRow, pyInsert]
  rw [rowInts_int_middle, rowInts_take_map_str, rowInts_drop_map_str]
  simp

/-- Structure of every row that league-page normalization emits: the
League Average row was not skipped, the abbreviation is path segment 2 of
the anchor href, and the row is season, abbreviation and name followed by
the stripped td texts. -/
theorem lrowCols_ok_some {s : Int} {lr : LRow} {cols : List Cell}
    (h : lrowCols s lr = Except.ok (some cols)) :
    pyStrip lr.teamName ≠ "League Average" ∧
    ∃ href ab, lr.href = some href ∧ (pySplitSlash href).get? 2 = some ab ∧
      cols = Cell.int s :: Cell.str ab :: Cell.str (pyStrip lr.teamName) ::
        lr.tds.map (fun td => Cell.str (pyStrip td)) := by
  simp only [lrowCols] at h
  split at h
  · simp at h
  · next hne =>
    split at h
    · simp at h
    · next href hhref =>
      split at h
      · simp at h
      · next ab hab =>
        simp only [Except.ok.injEq, Option.some.injEq] at h
        exact ⟨hne, href, ab, hhref, hab, h.symm⟩

theorem mem_leagueRowsOf {s : Int} {rows : List LRow} {rs : List (List Cell)}
    (h : leagueRowsOf s rows = Except.ok rs) :
    ∀ cols ∈ rs, ∃ lr ∈ rows, lrowCols s lr = Except.ok (some cols) := by
  induction rows generalizing rs with
  | nil =>
    simp only [leagueRowsOf, Except.ok.injEq] at h
    subst h
    simp
  | cons r rest ih =>
    simp only [leagueRowsOf] at h
    split at h
    · simp at h
    · next hskip =>
      intro cols hc
      rcases ih h cols hc with ⟨lr, hlr, he⟩
      exact ⟨lr, List.mem_cons_of_mem _ hlr, he⟩
    · next cols₀ hr₀ =>
      split at h
      · simp at h
      · next rs₀ hrest =>
        simp only [Except.ok.injEq] at h
        subst h
        intro cols hc
        rcases List.mem_cons.mp hc with he | hm
        · exact ⟨r, List.mem_cons_self _ _, by rw [hr₀, he]⟩
        · rcases ih hrest cols hm with ⟨lr, hlr, he⟩
          exact ⟨lr, List.mem_cons_of_mem _ hlr, he⟩

theorem mem_teamPerSeason {pages : Int → List TTable} {s : Int} {r : List Cell}
    (h : r ∈ teamPerSeason pages s) :
    ∃ t ts tr, pages s = t :: ts ∧ tr ∈ t.trs ∧ r = teamRow s tr := by
  unfold teamPerSeason at h
  split at h
  · simp at h
  · next t ts hp =>
    rcases List.mem_map.mp h with ⟨tr, htr, he⟩
    exact ⟨t, ts, tr, hp, htr, he.symm⟩

theorem mem_leaguePerSeason {pages : Int → Option LTable} {s : Int} {r : List Cell}
    (h : r ∈ leaguePerSeason pages s) :
    ∃ t, pages s = some t ∧ ∃ lr ∈ t.tbody, lrowCols s lr = Except.ok (some r) := by
  unfold leaguePerSeason at h
  split at h
  · simp at h
  · next t hp =>
    split at h
    · simp at h
    · next rs hr =>
      exact ⟨t, hp, mem_leagueRowsOf hr r h⟩

theorem mem_pyRangeAux {n : Nat} {a s : Int} (h : s ∈ pyRangeAux n a) :
    a ≤ s ∧ s < a + n := by
  induction n generalizing a with
  | zero => simp [pyRangeAux] at h
  | succ k ih =>
    rcases List.mem_cons.mp h with he | hm
    · subst he
      exact ⟨le_refl _, by omega⟩
    · rcases ih hm with ⟨h₁, h₂⟩
      constructor <;> omega

theorem mem_pyRange {a b s : Int} (h : s ∈ pyRange a b) : a ≤ s ∧ s ≤ b := by
  rcases mem_pyRangeAux h with ⟨h₁, h₂⟩
  refine ⟨h₁, ?_⟩
  by_cases hab : 0 ≤ b + 1 - a
  · rw [Int.toNat_of_nonneg hab] at h₂
    omega
  · rw [Int.toNat_of_nonpos (le_of_not_le hab)] at h₂
    omega

theorem pyRangeAux_pairwise (n : Nat) (a : Int) :
    List.Pairwise (· ≤ ·) (pyRangeAux n a) := by
  induction n generalizing a with
  | zero => exact List.Pairwise.nil
  | succ k ih =>
    refine List.Pairwise.cons ?_ (ih (a + 1))
    intro s hs
    have := (mem_pyRangeAux hs).1
    omega

theorem pyRange_pairwise (a b : Int) : List.Pairwise (· ≤ ·) (pyRange a b) :=
  pyRangeAux_pairwise _ _

theorem pyRange_eq_nil {a b : Int} (h : b < a) : pyRange a b = [] := by
  unfold pyRange
  rw [Int.toNat_of_nonpos (by omega)]
  rfl

theorem pairwise_of_forall_mem {R : α → α → Prop} {l : List α}
    (h : ∀ x ∈ l, ∀ y ∈ l, R x y) : List.Pairwise R l := by
  induction l with
  | nil => exact List.Pairwise.nil
  | cons x rest ih =>
    refine List.Pairwise.cons ?_ ?_
    · intro y hy
      exact h x (List.mem_cons_self _ _) y (List.mem_cons_of_mem _ hy)
    · exact ih (fun u hu v hv =>
        h u (List.mem_cons_of_mem _ hu) v (List.mem_cons_of_mem _ hv))

/-- Rows grouped per season in an ascending season list are ordered by
their season cells. -/
theorem pairwise_flatOver {ss : List Int} {g : Int → List (List Cell)}
    (hss : List.Pairwise (· ≤ ·) ss)
    (hg : ∀ s ∈ ss, ∀ r ∈ g s, rowInts r = [s]) :
    List.Pairwise RowLe (flatOver ss g) := by
  induction ss with
  | nil => exact List.Pairwise.nil
  | cons s rest ih =>
    rcases List.pairwise_cons.mp hss with ⟨hle, hrest⟩
    rw [flatOver]
    refine List.pairwise_append.mpr ⟨?_, ?_, ?_⟩
    · refine pairwise_of_forall_mem ?_
      intro r₁ h₁ r₂ h₂ x hx y hy
      rw [hg s (List.mem_cons_self _ _) r₁ h₁] at hx
      rw [hg s (List.mem_cons_self _ _) r₂ h₂] at hy
      simp at hx hy
      omega
    · exact ih hrest (fun u hu r hr => hg u (List.mem_cons_of_mem _ hu) r hr)
    · intro r₁ h₁ r₂ h₂ x hx y hy
      rcases mem_flatOver.mp h₂ with ⟨u, hu, hru⟩
      rw [hg s (List.mem_cons_self _ _) r₁ h₁] at hx
      rw [hg u (List.mem_cons_of_mem _ hu) r₂ hru] at hy
      simp at hx hy
      rw [hx, hy]
      exact hle u hu

theorem int_mem_teamRow (s : Int) (tr : List String) :
    Cell.int s ∈ teamRow s tr := by
  simp only [teamRow, pyInsert]
  exact List.mem_append.mpr (Or.inr (List.mem_cons_self _ _))

theorem pyInsert_length (i : Nat) (x : α) (l : List α) :
    (pyInsert i x l).length = l.length + 1 := by
  simp only [pyInsert, List.length_append, List.length_cons, List.length_take,
    List.length_drop]
  omega

theorem pyInsert_get?_self {i : Nat} {l : List α} (x : α) (h : i ≤ l.length) :
    (pyInsert i x l).get? i = some x := by
  have hlen : (l.take i).length = i := by
    simp [List.length_take]
    omega
  rw [pyInsert, List.get?_append_right (le_of_eq hlen), hlen]
  simp

/-- The only integer cell of a normalized league row is the prepended
season. -/
theorem rowInts_lrow {s : Int} {lr : LRow} {cols : List Cell}
    (h : lrowCols s lr = Except.ok (some cols)) : rowInts cols = [s] := by
  obtain ⟨-, href, ab, -, -, he⟩ := lrowCols_ok_some h
  subst he
  have htail : rowInts (Cell.str ab :: Cell.str (pyStrip lr.teamName) ::
      lr.tds.map (fun td => Cell.str (pyStrip td))) = [] := by
    refine rowInts_eq_nil ?_
    intro c hc n
    rcases List.mem_cons.mp hc with he | hc
    · rw [he]; simp
    rcases List.mem_cons.mp hc with he | hc
    · rw [he]; simp
    rcases List.mem_map.mp hc with ⟨x, -, hx⟩
    rw [← hx]; simp
  have : rowInts (Cell.int s :: Cell.str ab :: Cell.str (pyStrip lr.teamName) ::
      lr.tds.map (fun td => Cell.str (pyStrip td))) =
      s :: rowInts (Cell.str ab :: Cell.str (pyStrip lr.teamName) ::
      lr.tds.map (fun td => Cell.str (pyStrip td))) := rfl
  rw [this, htail]

/-- Unpacking of an arbitrary returned team row: it is a normalized row of
some in-range season, padded to the heading count, and free of NaN. -/
theorem team_rows_src {team : String} {a : Int} {eo : Option Int}
    {pages : Int → List TTable} {lt : List String} {f : Frame}
    (ht : team_batting_bref team a eo pages = (lt, Except.ok f))
    {r : List Cell} (hr : r ∈ f.rows) :
    ∃ s tr, s ∈ pyRange a (eo.getD a) ∧
      r = padTo f.headings.length (teamRow s tr) ∧ hasNan r = false ∧
      (teamRow s tr).length ≤ f.headings.length := by
  obtain ⟨hs₀, -, hbound, hrows⟩ := team_ok ht
  rw [hrows] at hr
  rcases List.mem_filter.mp hr with ⟨hmap, hpred⟩
  rcases List.mem_map.mp hmap with ⟨r₀, hr₀, hpad⟩
  rcases mem_flatOver.mp hr₀ with ⟨s, hsm, hper⟩
  rcases mem_teamPerSeason hper with ⟨t, ts, tr, -, -, hteq⟩
  subst hteq
  refine ⟨s, tr, hsm, hpad.symm, ?_, hbound _ hr₀⟩
  rw [← hpad] at hpred
  rw [← hpad]
  simpa using hpred

/-- Unpacking of an arbitrary returned league row: it is a normalized row
of some in-range season, padded to the heading count. -/
theorem season_rows_src {a : Int} {eo : Option Int}
    {pages : Int → Option LTable} {ls : List String} {g : Frame}
    (hs : season_batting_bref a eo pages = (ls, Except.ok g))
    {r : List Cell} (hr : r ∈ g.rows) :
    ∃ s cols, s ∈ pyRange a (eo.getD a) ∧
      (∃ t, pages s = some t ∧ ∃ lr ∈ t.tbody,
        lrowCols s lr = Except.ok (some cols)) ∧
      r = padTo g.headings.length cols ∧ cols.length ≤ g.headings.length := by
  obtain ⟨hs₀, -, hbound, hrows⟩ := season_ok hs
  rw [hrows] at hr
  rcases List.mem_map.mp hr with ⟨cols, hcols, hpad⟩
  rcases mem_flatOver.mp hcols with ⟨s, hsm, hper⟩
  rcases mem_leaguePerSeason hper with ⟨t, hp, lr, hlr, he⟩
  exact ⟨s, cols, hsm, ⟨t, hp, lr, hlr, he⟩, hpad.symm, hbound _ hcols⟩

theorem padTo_get?_two (n : Nat) (c0 c1 c2 : Cell) (rest : List Cell) :
    (padTo n (c0 :: c1 :: c2 :: rest)).get? 2 = some c2 := by
  rw [padTo, List.cons_append, List.cons_append, List.cons_append]
  rfl

/-- C1: the claim says a season_batting_bref call whose whole range lacks
the teams_standard_batting table returns an empty table, logs a notice per
missing season and raises nothing.  The code does log the notice and
continue per season, but with no season establishing headings the final
assert that headings were resolved fails, so the call raises an
AssertionError instead of returning an empty table. -/
theorem claim_C1_all_missing_seasons_raise :
    season_batting_bref 2030 none pagesNoLeagueTable =
      (["Getting per-team batting data: 2030", "Table not found for 2030"],
        Except.error PyError.assertionError) := by
  decide

/-- C2: no returned row of either entry point is entirely blank or
missing, because every normalized row carries the inserted integer season
cell, which is neither blank nor NaN. -/
theorem claim_C2_no_all_empty_row
    {team : String} {a₁ a₂ : Int} {eo₁ eo₂ : Option Int}
    {pagesT : Int → List TTable} {pagesS : Int → Option LTable}
    {lt ls : List String} {f g : Frame}
    (ht : team_batting_bref team a₁ eo₁ pagesT = (lt, Except.ok f))
    (hs : season_batting_bref a₂ eo₂ pagesS = (ls, Except.ok g)) :
    (∀ r ∈ f.rows, ∃ c ∈ r, cellEmpty c = false) ∧
    (∀ r ∈ g.rows, ∃ c ∈ r, cellEmpty c = false) := by
  constructor
  · intro r hr
    obtain ⟨s, tr, -, hpad, -, -⟩ := team_rows_src ht hr
    refine ⟨Cell.int s, ?_, rfl⟩
    rw [hpad, padTo]
    exact List.mem_append.mpr (Or.inl (int_mem_teamRow s tr))
  · intro r hr
    obtain ⟨s, cols, -, ⟨t, -, lr, -, he⟩, hpad, -⟩ := season_rows_src hs hr
    obtain ⟨-, href, ab, -, -, hcols⟩ := lrowCols_ok_some he
    refine ⟨Cell.int s, ?_, rfl⟩
    rw [hpad, padTo, hcols]
    exact List.mem_append.mpr (Or.inl (List.mem_cons_self _ _))

/-- C2 witness at concrete well-formed inputs. -/
theorem claim_C2_witness :
    (∀ r ∈ frameWT.rows, ∃ c ∈ r, cellEmpty c = false) ∧
    (∀ r ∈ frameWS.rows, ∃ c ∈ r, cellEmpty c = false) :=
  claim_C2_no_all_empty_row
    (by decide : team_batting_bref "T" 2001 (some 2002) pagesTeamW =
      (logWT, Except.ok frameWT))
    (by decide : season_batting_bref 2001 (some 2002) pagesLeagueW =
      (logWS, Except.ok frameWS))

/-- C3 counterexample: on this team page the second row normalizes to 2
fields against 4 headings, yet the call succeeds and the mismatched row is
silently absent from the result, refuting the claim that a mismatch is a
structural error rather than a silent discard. -/
theorem claim_C3_counterexample :
    team_batting_bref "X" 2000 none pagesShortRow =
      (["Getting Batting Data: 2000 X"],
        Except.ok ⟨["A", "B", "Year", "C"],
          [[Cell.str "a", Cell.str "b", Cell.int 2000, Cell.str "c"]]⟩) ∧
    (teamRow 2000 ["x"]).length = 2 := by
  constructor <;> decide

/-- C3 amended: every row of a returned table has exactly as many fields
as the headings, but a normalized row whose field count mismatches the
headings is not by itself a structural error: the DataFrame construction
raises exactly when the widest row of a nonempty batch differs from the
heading count, so a shorter row in a batch whose widest row matches the
headings is silently padded with NaN and, in team_batting_bref, then
silently dropped by the final dropna. -/
theorem claim_C3_uniform_row_length
    {team : String} {a₁ a₂ : Int} {eo₁ eo₂ : Option Int}
    {pagesT : Int → List TTable} {pagesS : Int → Option LTable}
    {lt ls : List String} {f g : Frame}
    (ht : team_batting_bref team a₁ eo₁ pagesT = (lt, Except.ok f))
    (hs : season_batting_bref a₂ eo₂ pagesS = (ls, Except.ok g)) :
    (∀ r ∈ f.rows, r.length = f.headings.length) ∧
    (∀ r ∈ g.rows, r.length = g.headings.length) ∧
    (∀ (hs₀ : List String) (rows₀ : List (List Cell)), rows₀ ≠ [] →
      (mkFrame hs₀ rows₀ = Except.error PyError.valueError ↔
        maxRowLen rows₀ ≠ hs₀.length)) := by
  refine ⟨?_, ?_, ?_⟩
  · intro r hr
    obtain ⟨s, tr, -, hpad, -, hle⟩ := team_rows_src ht hr
    rw [hpad]
    exact padTo_length hle
  · intro r hr
    obtain ⟨s, cols, -, -, hpad, hle⟩ := season_rows_src hs hr
    rw [hpad]
    exact padTo_length hle
  · intro hs₀ rows₀ hne
    cases rows₀ with
    | nil => exact absurd rfl hne
    | cons r rest =>
      constructor
      · intro herr hweq
        simp only [mkFrame] at herr
        rw [if_pos hweq] at herr
        simp at herr
      · intro hwne
        simp only [mkFrame]
        rw [if_neg hwne]

/-- C3 witness at concrete well-formed inputs. -/
theorem claim_C3_witness :
    (∀ r ∈ frameWT.rows, r.length = frameWT.headings.length) ∧
    (∀ r ∈ frameWS.rows, r.length = frameWS.headings.length) ∧
    (∀ (hs₀ : List String) (rows₀ : List (List Cell)), rows₀ ≠ [] →
      (mkFrame hs₀ rows₀ = Except.error PyError.valueError ↔
        maxRowLen rows₀ ≠ hs₀.length)) :=
  claim_C3_uniform_row_length
    (by decide : team_batting_bref "T" 2001 (some 2002) pagesTeamW =
      (logWT, Except.ok frameWT))
    (by decide : season_batting_bref 2001 (some 2002) pagesLeagueW =
      (logWS, Except.ok frameWS))

/-- C4: the claim says a season with no sortable stats table on its team
page fails fast with a TableNotFound error naming the season and team.
The code indexes the empty list of located tables, so the call does abort
the whole range with no partial result, but through a bare IndexError that
names neither the season nor the team. -/
theorem claim_C4_missing_team_table_index_error :
    team_batting_bref "NYY" 2030 none pagesNoTeamTable =
      (["Getting Batting Data: 2030 NYY"], Except.error PyError.indexError) := by
  decide

/-- C5 counterexample: season_batting_bref never strips the decoration
characters, so a star in a td cell or in the team name survives into the
returned table, refuting the claim for that entry point. -/
theorem claim_C5_counterexample :
    (season_batting_bref 2021 none pagesStarCell).2 =
      Except.ok ⟨["season", "team_abbrev", "team_name", "HR"],
        [[Cell.int 2021, Cell.str "LAD", Cell.str "Dodgers*", Cell.str "15*"]]⟩ ∧
    cellHasChar '*' (Cell.str "15*") = true := by
  constructor <;> decide

/-- C5 amended: team_batting_bref removes every star and hash from every
cell value, so no returned cell of that entry point contains a decoration
character; season_batting_bref performs no such stripping. -/
theorem claim_C5_team_rows_undecorated
    {team : String} {a : Int} {eo : Option Int}
    {pagesT : Int → List TTable} {lt : List String} {f : Frame}
    (ht : team_batting_bref team a eo pagesT = (lt, Except.ok f)) :
    ∀ r ∈ f.rows, ∀ c ∈ r,
      cellHasChar '*' c = false ∧ cellHasChar '#' c = false := by
  intro r hr c hc
  obtain ⟨s, tr, -, hpad, -, -⟩ := team_rows_src ht hr
  rw [hpad] at hc
  rcases mem_padTo hc with hm | he
  · rcases teamRow_cells hm with he | ⟨x, he, hstar, hhash, -, -, -⟩
    · rw [he]; exact ⟨rfl, rfl⟩
    · rw [he]
      exact ⟨hstar, hhash⟩
  · rw [he]; exact ⟨rfl, rfl⟩

/-- C5 witness at a concrete well-formed input, instantiated at a concrete
returned row and cell. -/
theorem claim_C5_witness :
    cellHasChar '*' (Cell.str "u") = false ∧
      cellHasChar '#' (Cell.str "u") = false :=
  claim_C5_team_rows_undecorated
    (by decide : team_batting_bref "T" 2001 (some 2002) pagesTeamW =
      (logWT, Except.ok frameWT))
    [Cell.str "u", Cell.str "v", Cell.int 2001] (by decide)
    (Cell.str "u") (by decide)

/-- C6 counterexample: season_batting_bref skips only the row whose team
name is League Average, so a tbody row labelled Team Totals is returned
with the aggregate marker as its team name field, refuting the claim. -/
theorem claim_C6_counterexample :
    (season_batting_bref 2020 none pagesTotalsRow).2 =
      Except.ok ⟨["season", "team_abbrev", "team_name", "G"],
        [[Cell.int 2020, Cell.str "TOT", Cell.str "Team Totals", Cell.str "162"]]⟩ ∧
    [Cell.int 2020, Cell.str "TOT", Cell.str "Team Totals", Cell.str "162"].get? 2 =
      some (Cell.str "Team Totals") := by
  constructor <;> decide

/-- C6 amended: team_batting_bref removes every cell containing Totals,
NL teams or AL teams as a substring, so no returned cell of that entry
point contains those markers, while the League Average marker is not
filtered there; season_batting_bref drops exactly the rows whose team name
is League Average, so no returned row has that team name field, while
totals markers are not filtered there. -/
theorem claim_C6_aggregate_filtering
    {team : String} {a₁ a₂ : Int} {eo₁ eo₂ : Option Int}
    {pagesT : Int → List TTable} {pagesS : Int → Option LTable}
    {lt ls : List String} {f g : Frame}
    (ht : team_batting_bref team a₁ eo₁ pagesT = (lt, Except.ok f))
    (hs : season_batting_bref a₂ eo₂ pagesS = (ls, Except.ok g)) :
    (∀ r ∈ f.rows, ∀ c ∈ r, cellIn "Totals" c = false ∧
      cellIn "NL teams" c = false ∧ cellIn "AL teams" c = false) ∧
    (∀ r ∈ g.rows, r.get? 2 ≠ some (Cell.str "League Average")) := by
  constructor
  · intro r hr c hc
    obtain ⟨s, tr, -, hpad, -, -⟩ := team_rows_src ht hr
    rw [hpad] at hc
    rcases mem_padTo hc with hm | he
    · rcases teamRow_cells hm with he | ⟨x, he, -, -, h₁, h₂, h₃⟩
      · rw [he]; exact ⟨rfl, rfl, rfl⟩
      · rw [he]
        exact ⟨h₁, h₂, h₃⟩
    · rw [he]; exact ⟨rfl, rfl, rfl⟩
  · intro r hr
    obtain ⟨s, cols, -, ⟨t, -, lr, -, he⟩, hpad, -⟩ := season_rows_src hs hr
    obtain ⟨hne, href, ab, -, -, hcols⟩ := lrowCols_ok_some he
    rw [hpad, hcols, padTo_get?_two]
    intro hcontra
    apply hne
    have := Option.some.injEq _ _ ▸ hcontra
    simpa using this

/-- C6 witness at concrete well-formed inputs. -/
theorem claim_C6_witness :
    (∀ r ∈ frameWT.rows, ∀ c ∈ r, cellIn "Totals" c = false ∧
      cellIn "NL teams" c = false ∧ cellIn "AL teams" c = false) ∧
    (∀ r ∈ frameWS.rows, r.get? 2 ≠ some (Cell.str "League Average")) :=
  claim_C6_aggregate_filtering
    (by decide : team_batting_bref "T" 2001 (some 2002) pagesTeamW =
      (logWT, Except.ok frameWT))
    (by decide : season_batting_bref 2001 (some 2002) pagesLeagueW =
      (logWS, Except.ok frameWS))

theorem teamRow_eq (s : Int) (tr : List String) :
    teamRow s tr = pyInsert 2 (Cell.int s)
      ((((tr.map pyStrip).map (fun c => pyRemoveChar '#' (pyRemoveChar '*' c))).filter
        (fun c => !(pyIn "Totals" c) && !(pyIn "NL teams" c) && !(pyIn "AL teams" c))).map
        Cell.str) := rfl

theorem teamRow_get?_two {s : Int} {tr : List String}
    (h : 3 ≤ (teamRow s tr).length) :
    (teamRow s tr).get? 2 = some (Cell.int s) := by
  rw [teamRow_eq] at h ⊢
  rw [pyInsert_length] at h
  exact pyInsert_get?_self _ (by omega)

/-- C7: every row of a returned table carries exactly one integer season
cell, that season lies in the inclusive requested range, and rows are
ordered by ascending season. -/
theorem claim_C7_rows_in_range_ascending
    {team : String} {a₁ b₁ a₂ b₂ : Int}
    {pagesT : Int → List TTable} {pagesS : Int → Option LTable}
    {lt ls : List String} {f g : Frame}
    (hab₁ : a₁ ≤ b₁) (hab₂ : a₂ ≤ b₂)
    (ht : team_batting_bref team a₁ (some b₁) pagesT = (lt, Except.ok f))
    (hs : season_batting_bref a₂ (some b₂) pagesS = (ls, Except.ok g)) :
    ((∀ r ∈ f.rows, ∃ s, rowInts r = [s] ∧ a₁ ≤ s ∧ s ≤ b₁) ∧
      List.Pairwise RowLe f.rows) ∧
    ((∀ r ∈ g.rows, ∃ s, rowInts r = [s] ∧ a₂ ≤ s ∧ s ≤ b₂) ∧
      List.Pairwise RowLe g.rows) := by
  refine ⟨⟨?_, ?_⟩, ?_, ?_⟩
  · intro r hr
    obtain ⟨s, tr, hsm, hpad, -, -⟩ := team_rows_src ht hr
    refine ⟨s, ?_, (mem_pyRange hsm).1, (mem_pyRange hsm).2⟩
    rw [hpad, rowInts_padTo, rowInts_teamRow]
  · obtain ⟨hs₀, -, -, hrows⟩ := team_ok ht
    rw [hrows]
    have hflat : List.Pairwise RowLe
        (flatOver (pyRange a₁ ((some b₁).getD a₁)) (teamPerSeason pagesT)) := by
      refine pairwise_flatOver (pyRange_pairwise _ _) ?_
      intro s hsm r hrr
      rcases mem_teamPerSeason hrr with ⟨t, ts, tr, -, -, he⟩
      rw [he, rowInts_teamRow]
    have hmap : List.Pairwise RowLe
        ((flatOver (pyRange a₁ ((some b₁).getD a₁)) (teamPerSeason pagesT)).map
          (padTo f.headings.length)) := by
      refine hflat.map _ ?_
      intro r₁ r₂ hle x hx y hy
      rw [rowInts_padTo] at hx hy
      exact hle x hx y hy
    exact List.Pairwise.sublist (List.filter_sublist _) hmap
  · intro r hr
    obtain ⟨s, cols, hsm, ⟨t, -, lr, -, he⟩, hpad, -⟩ := season_rows_src hs hr
    refine ⟨s, ?_, (mem_pyRange hsm).1, (mem_pyRange hsm).2⟩
    rw [hpad, rowInts_padTo, rowInts_lrow he]
  · obtain ⟨hs₀, -, -, hrows⟩ := season_ok hs
    rw [hrows]
    have hflat : List.Pairwise RowLe
        (flatOver (pyRange a₂ ((some b₂).getD a₂)) (leaguePerSeason pagesS)) := by
      refine pairwise_flatOver (pyRange_pairwise _ _) ?_
      intro s hsm r hrr
      rcases mem_leaguePerSeason hrr with ⟨t, -, lr, -, he⟩
      exact rowInts_lrow he
    refine hflat.map _ ?_
    intro r₁ r₂ hle x hx y hy
    rw [rowInts_padTo] at hx hy
    exact hle x hx y hy

/-- C7 witness at concrete well-formed inputs. -/
theorem claim_C7_witness :
    ((∀ r ∈ frameWT.rows, ∃ s, rowInts r = [s] ∧ (2001 : Int) ≤ s ∧ s ≤ 2002) ∧
      List.Pairwise RowLe frameWT.rows) ∧
    ((∀ r ∈ frameWS.rows, ∃ s, rowInts r = [s] ∧ (2001 : Int) ≤ s ∧ s ≤ 2002) ∧
      List.Pairwise RowLe frameWS.rows) :=
  claim_C7_rows_in_range_ascending (by decide) (by decide)
    (by decide : team_batting_bref "T" 2001 (some 2002) pagesTeamW =
      (logWT, Except.ok frameWT))
    (by decide : season_batting_bref 2001 (some 2002) pagesLeagueW =
      (logWS, Except.ok frameWS))

/-- C8: team_batting_bref inserts the Year heading at index 2 and, in
every returned row, the season value sits at index 2 whenever the table is
wide enough for index 2 to exist; season_batting_bref returns season,
team_abbrev and team_name as the first three headings, and every returned
row is the season, the abbreviation decoded as path segment 2 of the team
link href, and the stripped team name, prepended to the stripped td texts,
padded to the heading count. -/
theorem claim_C8_derived_column_positions
    {team : String} {a₁ a₂ : Int} {eo₁ eo₂ : Option Int}
    {pagesT : Int → List TTable} {pagesS : Int → Option LTable}
    {lt ls : List String} {f g : Frame}
    (ht : team_batting_bref team a₁ eo₁ pagesT = (lt, Except.ok f))
    (hs : season_batting_bref a₂ eo₂ pagesS = (ls, Except.ok g)) :
    ((3 ≤ f.headings.length → f.headings.get? 2 = some "Year") ∧
      (∀ r ∈ f.rows, 3 ≤ f.headings.length →
        r.get? 2 = some (Cell.int (((rowInts r).headD 0))) ∧
        ∃ s, rowInts r = [s])) ∧
    (g.headings.take 3 = ["season", "team_abbrev", "team_name"] ∧
      ∀ r ∈ g.rows, ∃ s t lr, s ∈ pyRange a₂ (eo₂.getD a₂) ∧
        pagesS s = some t ∧ lr ∈ t.tbody ∧
        ∃ href ab, lr.href = some href ∧
          (pySplitSlash href).get? 2 = some ab ∧
          r = padTo g.headings.length
            (Cell.int s :: Cell.str ab :: Cell.str (pyStrip lr.teamName) ::
              lr.tds.map (fun td => Cell.str (pyStrip td)))) := by
  obtain ⟨hs₀, hh, -, -⟩ := team_ok ht
  refine ⟨⟨?_, ?_⟩, ?_, ?_⟩
  · intro hlen
    rw [hh] at hlen ⊢
    rw [pyInsert_length] at hlen
    exact pyInsert_get?_self _ (by omega)
  · intro r hr hlen
    obtain ⟨s, tr, -, hpad, hnon, hle⟩ := team_rows_src ht hr
    have hself : padTo f.headings.length (teamRow s tr) = teamRow s tr :=
      padTo_eq_self (by rw [← hpad]; exact hnon)
    have hre : r = teamRow s tr := by rw [hpad, hself]
    have hlenr : r.length = f.headings.length := by
      rw [hpad]; exact padTo_length hle
    have hints : rowInts r = [s] := by rw [hre, rowInts_teamRow]
    refine ⟨?_, s, hints⟩
    rw [hints]
    rw [hre]
    exact teamRow_get?_two (by rw [← hre, hlenr]; omega)
  · obtain ⟨hs₁, hh₁, -, -⟩ := season_ok hs
    rw [hh₁]
    rfl
  · intro r hr
    obtain ⟨s, cols, hsm, ⟨t, hp, lr, hlr, he⟩, hpad, -⟩ := season_rows_src hs hr
    obtain ⟨-, href, ab, hhref, hab, hcols⟩ := lrowCols_ok_some he
    exact ⟨s, t, lr, hsm, hp, hlr, href, ab, hhref, hab, by rw [hpad, hcols]⟩

/-- C8 witness at concrete well-formed inputs. -/
theorem claim_C8_witness :
    ((3 ≤ frameWT.headings.length → frameWT.headings.get? 2 = some "Year") ∧
      (∀ r ∈ frameWT.rows, 3 ≤ frameWT.headings.length →
        r.get? 2 = some (Cell.int (((rowInts r).headD 0))) ∧
        ∃ s, rowInts r = [s])) ∧
    (frameWS.headings.take 3 = ["season", "team_abbrev", "team_name"] ∧
      ∀ r ∈ frameWS.rows, ∃ s t lr, s ∈ pyRange 2001 2002 ∧
        pagesLeagueW s = some t ∧ lr ∈ t.tbody ∧
        ∃ href ab, lr.href = some href ∧
          (pySplitSlash href).get? 2 = some ab ∧
          r = padTo frameWS.headings.length
            (Cell.int s :: Cell.str ab :: Cell.str (pyStrip lr.teamName) ::
              lr.tds.map (fun td => Cell.str (pyStrip td)))) :=
  claim_C8_derived_column_positions
    (by decide : team_batting_bref "T" 2001 (some 2002) pagesTeamW =
      (logWT, Except.ok frameWT))
    (by decide : season_batting_bref 2001 (some 2002) pagesLeagueW =
      (logWS, Except.ok frameWS))

/-- C9: omitting the end season is the same call as passing the start
season for it, for both entry points, on identical fetched pages. -/
theorem claim_C9_default_end_season (team : String) (s : Int)
    (pagesT : Int → List TTable) (pagesS : Int → Option LTable) :
    team_batting_bref team s none pagesT = team_batting_bref team s (some s) pagesT ∧
    season_batting_bref s none pagesS = season_batting_bref s (some s) pagesS :=
  ⟨rfl, rfl⟩

/-- C10: a call with the start season strictly above the given end season
iterates zero seasons, so no headings are established, nothing is logged,
and both entry points fail the assert that headings were resolved, raising
an AssertionError rather than returning an empty table. -/
theorem claim_C10_empty_range_asserts
    {team : String} {a b : Int} {pagesT : Int → List TTable}
    {pagesS : Int → Option LTable} (h : b < a) :
    team_batting_bref team a (some b) pagesT =
      ([], Except.error PyError.assertionError) ∧
    season_batting_bref a (some b) pagesS =
      ([], Except.error PyError.assertionError) := by
  have hr : pyRange a ((some b).getD a) = [] := pyRange_eq_nil h
  constructor
  · simp only [team_batting_bref]
    rw [hr]
    rfl
  · simp only [season_batting_bref]
    rw [hr]
    rfl

/-- C10 witness at a concrete empty range. -/
theorem claim_C10_witness :
    team_batting_bref "T" 5 (some 4) pagesTeamW =
      ([], Except.error PyError.assertionError) ∧
    season_batting_bref 5 (some 4) pagesLeagueW =
      ([], Except.error PyError.assertionError) :=
  claim_C10_empty_range_asserts (by decide)

end Pybaseball
